import Mathlib

set_option maxHeartbeats 1000000

/-! Shallow embedding of the go-apdu package (ISO 7816-4 command/response
APDU codec), translated from `capdu.go`, the response codec file, and the
older parser variant kept in the repository. Bytes are modelled as `Nat`
values (genuine byte inputs have all entries `< 256`); Go's `int` fields
are modelled as `Nat` (every verified claim concerns non-negative values
only), with Go's byte casts written as explicit `% 256`. A Go runtime
panic (an out-of-range index or slice access) is modelled by `Option.none`
in the parsers' result type, so a parser returning `some _` performed only
in-bounds accesses. Numeric constants from the source (`LenHeader = 4`,
`OffsetLcStandard = 4`, `OffsetCdataExtended = 7`, `MaxLenCommandDataExtended
= 65535`, `MaxLenResponseDataStandard = 256`, `MaxLenResponseDataExtended =
65536`, ...) are inlined as literals. -/

namespace GoApdu

/-- Capdu is a Command APDU (struct from `capdu.go`): header bytes CLA, INS,
P1, P2, the data field, and the decoded expected-response length Ne. -/
structure Capdu where
  CLA : Nat
  INS : Nat
  P1 : Nat
  P2 : Nat
  Data : List Nat
  Ne : Nat
deriving DecidableEq, Repr

/-- Rapdu is a Response APDU (struct from the response codec): data field
plus the two status-word bytes. -/
structure Rapdu where
  Data : List Nat
  SW1 : Nat
  SW2 : Nat
deriving DecidableEq, Repr

/-- Error taxonomy: one constructor per `fmt.Errorf` site relevant to the
codec logic (the message strings are abstracted, the offending value is
kept). -/
inductive ApduErr where
  | invalidCapduLen (n : Nat)
  | invalidLeHid (le : Nat)
  | invalidLcExt (lc : Nat)
  | invalidLcStd (lc : Nat)
  | invalidRapduLen (n : Nat)
  | dataTooLong (n : Nat)
  | neTooBig (n : Nat)
deriving DecidableEq, Repr

instance {ε α : Type} [DecidableEq ε] [DecidableEq α] : DecidableEq (Except ε α) :=
  fun x y =>
    match x, y with
    | .ok a, .ok b =>
        if h : a = b then isTrue (by rw [h]) else isFalse (by simp [h])
    | .error a, .error b =>
        if h : a = b then isTrue (by rw [h]) else isFalse (by simp [h])
    | .ok _, .error _ => isFalse (by simp)
    | .error _, .ok _ => isFalse (by simp)

/-- Go `c[i]` on a byte slice: `none` models the runtime bounds-check panic. -/
def idx? (c : List Nat) (i : Nat) : Option Nat := c.get? i

/-- Go `c[a:b]` on a byte slice: defined exactly when `a ≤ b ≤ len c`. -/
def slice? (c : List Nat) (a b : Nat) : Option (List Nat) :=
  if a ≤ b ∧ b ≤ c.length then some ((c.drop a).take (b - a)) else none

/-- Go `c[a:]` on a byte slice: defined exactly when `a ≤ len c`. -/
def sliceFrom? (c : List Nat) (a : Nat) : Option (List Nat) :=
  if a ≤ c.length then some (c.drop a) else none

/-- Go `binary.BigEndian.Uint16`: big-endian read of the first two bytes,
panicking (`none`) when fewer than two bytes are available. -/
def beUint16? : List Nat → Option Nat
  | hi :: lo :: _ => some (hi * 256 + lo)
  | _ => none

/-- ParseCapdu from `capdu.go` (the current parser): parses a Command APDU.
`some (.ok _)` is a successful parse, `some (.error _)` a returned Go error,
`none` a runtime panic (shown impossible elsewhere). -/
def ParseCapdu (c : List Nat) : Option (Except ApduErr Capdu) :=
  if c.length < 4 ∨ 65544 < c.length then
    some (.error (.invalidCapduLen c.length))
  else
    (idx? c 0).bind fun cla =>
    (idx? c 1).bind fun ins =>
    (idx? c 2).bind fun p1 =>
    (idx? c 3).bind fun p2 =>
    -- CASE 1 command: only HEADER
    if c.length = 4 then
      some (.ok ⟨cla, ins, p1, p2, [], 0⟩)
    -- STANDARD CASE 2 command: HEADER | Le
    else if c.length = 4 + 1 then
      (idx? c 4).bind fun ne =>
      if ne = 0 then some (.ok ⟨cla, ins, p1, p2, [], 256⟩)
      else some (.ok ⟨cla, ins, p1, p2, [], ne⟩)
    else
      (idx? c 4).bind fun b4 =>
      -- extended APDUs indicated by 00 byte after header, not standard case 2
      if b4 = 0 then
        -- EXTENDED CASE 2 command: HEADER | Le (two-byte Le after the zero byte)
        if c.length = 4 + 1 + 2 then
          (sliceFrom? c 5).bind fun t =>
          (beUint16? t).bind fun le =>
          some (.ok ⟨cla, ins, p1, p2, [], if le = 0 then 65536 else le⟩)
        -- dodgy broken HID reader request: only Ne == 256 is tolerated
        else if c.length = 4 + 2 then
          (idx? c 5).bind fun le =>
          if le ≠ 0 then some (.error (.invalidLeHid le))
          else some (.ok ⟨cla, ins, p1, p2, [], 256⟩)
        else
          (sliceFrom? c 5).bind fun t =>
          (beUint16? t).bind fun lc =>
          -- bodyLen := len c - 4; reject unless lc = bodyLen-3 or bodyLen-3-2
          if (lc : Int) ≠ (c.length : Int) - 4 - 3 ∧
             (lc : Int) ≠ (c.length : Int) - 4 - 3 - 2 then
            some (.error (.invalidLcExt lc))
          else
            (slice? c 7 (7 + lc)).bind fun data =>
            -- EXTENDED CASE 3 command: HEADER | Lc | DATA
            if c.length = 4 + 3 + data.length then
              some (.ok ⟨cla, ins, p1, p2, data, 0⟩)
            -- EXTENDED CASE 4 command: HEADER | Lc | DATA | Le
            else
              (slice? c (c.length - 2) c.length).bind fun t2 =>
              (beUint16? t2).bind fun le =>
              some (.ok ⟨cla, ins, p1, p2, data, if le = 0 then 65536 else le⟩)
      else
        -- bodyLen := len c - 4; reject unless b4 = bodyLen-1 or bodyLen-1-1
        if (b4 : Int) ≠ (c.length : Int) - 4 - 1 ∧
           (b4 : Int) ≠ (c.length : Int) - 4 - 1 - 1 then
          some (.error (.invalidLcStd b4))
        else
          (slice? c 5 (5 + b4)).bind fun data =>
          -- STANDARD CASE 3 command: HEADER | Lc | DATA
          if c.length = 4 + 1 + data.length then
            some (.ok ⟨cla, ins, p1, p2, data, 0⟩)
          -- STANDARD CASE 4 command: HEADER | Lc | DATA | Le
          else
            (idx? c (c.length - 1)).bind fun le =>
            some (.ok ⟨cla, ins, p1, p2, data, if le = 0 then 256 else le⟩)

/-- BytesExtended from `capdu.go`: byte representation of the Capdu forcing
extended form. The 2-byte data length plus data are emitted only when data
is nonempty; the 2-byte Ne field is emitted when Ne > 0 or data is empty. -/
def Capdu.BytesExtended (c : Capdu) : Except ApduErr (List Nat) :=
  if 65535 < c.Data.length then .error (.dataTooLong c.Data.length)
  else if 65536 < c.Ne then .error (.neTooBig c.Ne)
  else
    .ok ([c.CLA, c.INS, c.P1, c.P2, 0]
      ++ (if 0 < c.Data.length then
            [c.Data.length / 256 % 256, c.Data.length % 256] ++ c.Data
          else [])
      ++ (if 0 < c.Ne ∨ c.Data.length = 0 then [c.Ne / 256 % 256, c.Ne % 256]
          else []))

/-- Bytes from `capdu.go`: minimal byte representation of the Capdu,
delegating to BytesExtended when data length > 255 or Ne > 256. -/
def Capdu.Bytes (c : Capdu) : Except ApduErr (List Nat) :=
  if 65535 < c.Data.length then .error (.dataTooLong c.Data.length)
  else if 65536 < c.Ne then .error (.neTooBig c.Ne)
  else if 255 < c.Data.length ∨ 256 < c.Ne then c.BytesExtended
  -- CASE 1: HEADER
  else if c.Data.length = 0 ∧ c.Ne = 0 then
    .ok [c.CLA, c.INS, c.P1, c.P2]
  -- CASE 2: HEADER | Le
  else if c.Data.length = 0 ∧ 0 < c.Ne then
    .ok [c.CLA, c.INS, c.P1, c.P2, c.Ne % 256]
  -- CASE 3: HEADER | Lc | DATA
  else if c.Data.length ≠ 0 ∧ c.Ne = 0 then
    .ok ([c.CLA, c.INS, c.P1, c.P2, c.Data.length % 256] ++ c.Data)
  -- CASE 4: HEADER | Lc | DATA | Le
  else
    .ok ([c.CLA, c.INS, c.P1, c.P2, c.Data.length % 256] ++ c.Data
      ++ [c.Ne % 256])

/-- SW from the response codec: the 16-bit status word. -/
def Rapdu.SW (r : Rapdu) : Nat := r.SW1 * 256 + r.SW2

/-- ParseRapdu from the response codec: parses a Response APDU. -/
def ParseRapdu (b : List Nat) : Option (Except ApduErr Rapdu) :=
  if b.length < 2 ∨ 65538 < b.length then
    some (.error (.invalidRapduLen b.length))
  else if b.length = 2 then
    (idx? b 0).bind fun s1 =>
    (idx? b 1).bind fun s2 =>
    some (.ok ⟨[], s1, s2⟩)
  else
    (slice? b 0 (b.length - 2)).bind fun data =>
    (idx? b (b.length - 2)).bind fun s1 =>
    (idx? b (b.length - 1)).bind fun s2 =>
    some (.ok ⟨data, s1, s2⟩)

/-- Bytes from the response codec: data followed by the two status bytes. -/
def Rapdu.Bytes (r : Rapdu) : Except ApduErr (List Nat) :=
  if 65536 < r.Data.length then .error (.dataTooLong r.Data.length)
  else .ok (r.Data ++ [r.SW1, r.SW2])

/-- IsSuccess from the response codec: SW1 = 0x61 or SW = 0x9000. -/
def Rapdu.IsSuccess (r : Rapdu) : Bool :=
  r.SW1 == 0x61 || r.SW == 0x9000

/-- IsWarning from the response codec: SW1 = 0x62 or SW1 = 0x63. -/
def Rapdu.IsWarning (r : Rapdu) : Bool :=
  r.SW1 == 0x62 || r.SW1 == 0x63

/-- IsError from the response codec: SW1 ∈ {0x64, 0x65} or 0x67 ≤ SW1 ≤ 0x6F. -/
def Rapdu.IsError (r : Rapdu) : Bool :=
  (r.SW1 == 0x64 || r.SW1 == 0x65) ||
    (decide (0x67 ≤ r.SW1) && decide (r.SW1 ≤ 0x6F))

/-- ParseCapdu from the older parser variant kept in the repository
(`src/unnamed/part_000`): same signature, but the zero-sentinel check is
performed before the standard Case 2 check, guarded by `len c[5:] > 0`,
the HID branch reads its Le as a 16-bit big-endian value at offset 4, and
the extended Lc is read from the two-element slice `c[5:7]`. -/
def Part000ParseCapdu (c : List Nat) : Option (Except ApduErr Capdu) :=
  if c.length < 4 ∨ 65544 < c.length then
    some (.error (.invalidCapduLen c.length))
  else
    (idx? c 0).bind fun cla =>
    (idx? c 1).bind fun ins =>
    (idx? c 2).bind fun p1 =>
    (idx? c 3).bind fun p2 =>
    -- CASE 1 command: only HEADER
    if c.length = 4 then
      some (.ok ⟨cla, ins, p1, p2, [], 0⟩)
    else
      (idx? c 4).bind fun b4 =>
      -- fallthrough code shared by both non-extended paths (Go control flow
      -- falls out of the sentinel `if` into the standard-case code)
      let std : Option (Except ApduErr Capdu) :=
        -- STANDARD CASE 2 command: HEADER | LE
        if c.length = 4 + 1 then
          if b4 = 0 then some (.ok ⟨cla, ins, p1, p2, [], 256⟩)
          else some (.ok ⟨cla, ins, p1, p2, [], b4⟩)
        else
          if (b4 : Int) ≠ (c.length : Int) - 4 - 1 ∧
             (b4 : Int) ≠ (c.length : Int) - 4 - 1 - 1 then
            some (.error (.invalidLcStd b4))
          else
            (slice? c 5 (5 + b4)).bind fun data =>
            -- STANDARD CASE 3 command: HEADER | LC | DATA
            if c.length = 4 + 1 + data.length then
              some (.ok ⟨cla, ins, p1, p2, data, 0⟩)
            -- STANDARD CASE 4 command: HEADER | LC | DATA | LE
            else
              (idx? c (c.length - 1)).bind fun le =>
              some (.ok ⟨cla, ins, p1, p2, data, if le = 0 then 256 else le⟩)
      if b4 = 0 then
        (sliceFrom? c 5).bind fun t5 =>
        if 0 < t5.length then
          -- EXTENDED CASE 2 command: HEADER | LE
          if c.length = 4 + 3 then
            (beUint16? t5).bind fun le =>
            some (.ok ⟨cla, ins, p1, p2, [], if le = 0 then 65536 else le⟩)
          -- dodgy broken HID reader request
          else if c.length = 4 + 2 then
            (sliceFrom? c 4).bind fun t4 =>
            (beUint16? t4).bind fun le =>
            if le ≠ 0 then some (.error (.invalidLeHid le))
            else some (.ok ⟨cla, ins, p1, p2, [], 256⟩)
          else
            (slice? c 5 (5 + 2)).bind fun lcb =>
            (beUint16? lcb).bind fun lc =>
            if (lc : Int) ≠ (c.length : Int) - 4 - 3 ∧
               (lc : Int) ≠ (c.length : Int) - 4 - 3 - 2 then
              some (.error (.invalidLcExt lc))
            else
              (slice? c 7 (7 + lc)).bind fun data =>
              -- EXTENDED CASE 3 command: HEADER | LC | DATA
              if c.length = 4 + 3 + data.length then
                some (.ok ⟨cla, ins, p1, p2, data, 0⟩)
              -- EXTENDED CASE 4 command: HEADER | LC | DATA | LE
              else
                (slice? c (c.length - 2) c.length).bind fun t2 =>
                (beUint16? t2).bind fun le =>
                some (.ok ⟨cla, ins, p1, p2, data, if le = 0 then 65536 else le⟩)
        else std
      else std

/-! ### Basic facts about the Go slice-access helpers -/

theorem idx?_cons_zero (a : Nat) (l : List Nat) : idx? (a :: l) 0 = some a := rfl

theorem idx?_cons_add_one (a : Nat) (l : List Nat) (n : Nat) :
    idx? (a :: l) (n + 1) = idx? l n := rfl

theorem idx?_cons5 (a b d e k : Nat) (l : List Nat) (n : Nat) :
    idx? (a :: b :: d :: e :: k :: l) (n + 5) = idx? l n := rfl

theorem idx?_append_right (l r : List Nat) (n : Nat) (h : l.length ≤ n) :
    idx? (l ++ r) n = idx? r (n - l.length) := by
  induction l generalizing n with
  | nil => simp [idx?]
  | cons a t ih =>
      cases n with
      | zero => simp at h
      | succ n =>
          simp only [List.cons_append, idx?_cons_add_one]
          simpa using ih n (by simpa using h)

theorem beUint16?_isSome (l : List Nat) (h : 2 ≤ l.length) :
    beUint16? l = some (l.headI * 256 + l.tail.headI) := by
  match l, h with
  | hi :: lo :: rest, _ => rfl

theorem beUint16?_cons (x y : Nat) (l : List Nat) :
    beUint16? (x :: y :: l) = some (x * 256 + y) := rfl

theorem idx?_getD (l : List Nat) (n : Nat) (h : n < l.length) :
    idx? l n = some (l.getD n 0) := by
  induction l generalizing n with
  | nil => simp at h
  | cons a t ih =>
      cases n with
      | zero => rfl
      | succ n =>
          show idx? t n = _
          rw [ih n (by simpa using h)]
          rfl

theorem drop_headI_getD (l : List Nat) (j : Nat) :
    (l.drop j).headI = l.getD j 0 := by
  induction l generalizing j with
  | nil => simp [List.getD]
  | cons a t ih =>
      cases j with
      | zero => rfl
      | succ j => simpa using ih j

theorem drop_cons7 (a b d e f g h : Nat) (l : List Nat) (n : Nat) :
    (a :: b :: d :: e :: f :: g :: h :: l).drop (n + 7) = l.drop n := rfl

theorem exists_cons4 : ∀ (c : List Nat), 4 ≤ c.length →
    ∃ a b d e rest, c = a :: b :: d :: e :: rest
  | a :: b :: d :: e :: rest, _ => ⟨a, b, d, e, rest, rfl⟩
  | [], h => by simp at h
  | [_], h => by simp at h
  | [_, _], h => by simp at h
  | [_, _, _], h => by simp at h

theorem exists_cons5 : ∀ (c : List Nat), 5 ≤ c.length →
    ∃ a b d e k rest, c = a :: b :: d :: e :: k :: rest
  | a :: b :: d :: e :: k :: rest, _ => ⟨a, b, d, e, k, rest, rfl⟩
  | [], h => by simp at h
  | [_], h => by simp at h
  | [_, _], h => by simp at h
  | [_, _, _], h => by simp at h
  | [_, _, _, _], h => by simp at h

/-! ### Shape lemmas: the value of ParseCapdu on each serialized form -/

/-- Case 1: a bare header parses to the empty command. -/
theorem parse_case1 (a b d e : Nat) :
    ParseCapdu [a, b, d, e] = some (.ok ⟨a, b, d, e, [], 0⟩) := rfl

/-- Standard Case 2: header plus one Le byte, with the 0 → 256 mapping. -/
theorem parse_case2_std (a b d e x : Nat) :
    ParseCapdu [a, b, d, e, x]
      = some (.ok ⟨a, b, d, e, [], if x = 0 then 256 else x⟩) := by
  by_cases hx : x = 0
  · subst hx; rfl
  · unfold ParseCapdu
    norm_num [idx?]
    rw [if_neg hx, if_neg hx]

/-- Extended Case 2: header, zero sentinel and a 2-byte Le, 0 → 65536. -/
theorem parse_case2_ext (a b d e hi lo : Nat) :
    ParseCapdu [a, b, d, e, 0, hi, lo]
      = some (.ok ⟨a, b, d, e, [],
          if hi * 256 + lo = 0 then 65536 else hi * 256 + lo⟩) := by
  unfold ParseCapdu
  norm_num [idx?, sliceFrom?, beUint16?]

/-- HID quirk: a 6-byte command with both trailing bytes zero gives Ne = 256. -/
theorem parse_hid_ok (a b d e : Nat) :
    ParseCapdu [a, b, d, e, 0, 0] = some (.ok ⟨a, b, d, e, [], 256⟩) := rfl

/-- HID quirk: a 6-byte command with zero sentinel and nonzero final byte
is rejected. -/
theorem parse_hid_err (a b d e x : Nat) (hx : x ≠ 0) :
    ParseCapdu [a, b, d, e, 0, x] = some (.error (.invalidLeHid x)) := by
  unfold ParseCapdu
  norm_num [idx?]
  intro h
  exact absurd h hx

/-- Standard Case 3: header, 1-byte Lc equal to the data length, data. -/
theorem parse_case3_std (a b d e : Nat) (data : List Nat)
    (h1 : 1 ≤ data.length) (h2 : data.length ≤ 255) :
    ParseCapdu (a :: b :: d :: e :: data.length :: data)
      = some (.ok ⟨a, b, d, e, data, 0⟩) := by
  have hlen : (a :: b :: d :: e :: data.length :: data).length = 5 + data.length := by
    simp only [List.length_cons]; omega
  unfold ParseCapdu
  rw [if_neg (by rw [hlen]; omega)]
  show (Option.bind _ _) = _
  simp only [idx?_cons_zero, idx?_cons_add_one, Option.some_bind]
  rw [if_neg (by rw [hlen]; omega), if_neg (by rw [hlen]; omega)]
  rw [if_neg (by omega : ¬data.length = 0)]
  rw [hlen]
  push_cast
  rw [if_neg (by omega)]
  unfold slice?
  rw [if_pos (by omega)]
  simp only [List.drop_succ_cons, List.drop_zero, Option.some_bind]
  rw [show 5 + data.length - 5 = data.length by omega, List.take_length]
  rw [if_pos (by omega)]

/-- Standard Case 4: header, 1-byte Lc, data, one trailing Le byte. -/
theorem parse_case4_std (a b d e x : Nat) (data : List Nat)
    (h1 : 1 ≤ data.length) (h2 : data.length ≤ 255) :
    ParseCapdu (a :: b :: d :: e :: data.length :: (data ++ [x]))
      = some (.ok ⟨a, b, d, e, data, if x = 0 then 256 else x⟩) := by
  have hlen : (a :: b :: d :: e :: data.length :: (data ++ [x])).length
      = 6 + data.length := by
    simp; omega
  unfold ParseCapdu
  rw [if_neg (by rw [hlen]; omega)]
  show (Option.bind _ _) = _
  simp only [idx?_cons_zero, idx?_cons_add_one, Option.some_bind]
  rw [if_neg (by rw [hlen]; omega), if_neg (by rw [hlen]; omega)]
  rw [if_neg (by omega : ¬data.length = 0)]
  rw [hlen]
  push_cast
  rw [if_neg (by omega)]
  unfold slice?
  rw [if_pos (by
    have hax : (data ++ [x]).length = data.length + 1 := by simp
    omega)]
  simp only [List.drop_succ_cons, List.drop_zero, Option.some_bind]
  rw [show 5 + data.length - 5 = data.length by omega, List.take_left' rfl]
  rw [if_neg (by omega)]
  rw [show 6 + data.length - 1 = data.length + 5 by omega, idx?_cons5,
    idx?_append_right data [x] data.length (le_refl _), Nat.sub_self]
  rfl

/-- Extended Case 3: header, zero sentinel, 2-byte Lc, data. -/
theorem parse_case3_ext (a b d e hi lo : Nat) (data : List Nat)
    (hn : hi * 256 + lo = data.length)
    (h1 : 1 ≤ data.length) (h2 : data.length ≤ 65535) :
    ParseCapdu (a :: b :: d :: e :: 0 :: hi :: lo :: data)
      = some (.ok ⟨a, b, d, e, data, 0⟩) := by
  have hlen : (a :: b :: d :: e :: 0 :: hi :: lo :: data).length
      = 7 + data.length := by
    simp only [List.length_cons]; omega
  unfold ParseCapdu
  rw [if_neg (by rw [hlen]; omega)]
  show (Option.bind _ _) = _
  simp only [idx?_cons_zero, idx?_cons_add_one, Option.some_bind]
  rw [if_neg (by rw [hlen]; omega), if_neg (by rw [hlen]; omega)]
  rw [if_pos trivial]
  rw [if_neg (by rw [hlen]; omega), if_neg (by rw [hlen]; omega)]
  unfold sliceFrom?
  rw [if_pos (by rw [hlen]; omega)]
  simp only [List.drop_succ_cons, List.drop_zero, Option.some_bind, beUint16?,
    hn, hlen]
  push_cast
  rw [if_neg (by omega)]
  unfold slice?
  rw [if_pos (by simp only [List.length_cons]; omega)]
  simp only [List.drop_succ_cons, List.drop_zero, Option.some_bind]
  rw [show 7 + data.length - 7 = data.length by omega, List.take_length]
  rw [if_pos (by omega)]

/-- Extended Case 4: header, zero sentinel, 2-byte Lc, data, 2-byte Le. -/
theorem parse_case4_ext (a b d e hi lo x y : Nat) (data : List Nat)
    (hn : hi * 256 + lo = data.length)
    (h1 : 1 ≤ data.length) (h2 : data.length ≤ 65535) :
    ParseCapdu (a :: b :: d :: e :: 0 :: hi :: lo :: (data ++ [x, y]))
      = some (.ok ⟨a, b, d, e, data,
          if x * 256 + y = 0 then 65536 else x * 256 + y⟩) := by
  have hlen : (a :: b :: d :: e :: 0 :: hi :: lo :: (data ++ [x, y])).length
      = 9 + data.length := by
    simp only [List.length_cons, List.length_append]; simp; omega
  unfold ParseCapdu
  rw [if_neg (by rw [hlen]; omega)]
  show (Option.bind _ _) = _
  simp only [idx?_cons_zero, idx?_cons_add_one, Option.some_bind]
  rw [if_neg (by rw [hlen]; omega), if_neg (by rw [hlen]; omega)]
  rw [if_pos trivial]
  rw [if_neg (by rw [hlen]; omega), if_neg (by rw [hlen]; omega)]
  unfold sliceFrom?
  rw [if_pos (by rw [hlen]; omega)]
  simp only [List.drop_succ_cons, List.drop_zero, Option.some_bind, beUint16?,
    hn, hlen]
  push_cast
  rw [if_neg (by omega)]
  unfold slice?
  rw [if_pos (by
    have hxy : (data ++ [x, y]).length = data.length + 2 := by simp
    omega)]
  simp only [List.drop_succ_cons, List.drop_zero, Option.some_bind]
  rw [show 7 + data.length - 7 = data.length by omega, List.take_left' rfl]
  rw [if_neg (by omega)]
  rw [if_pos (by
    have hxy : (data ++ [x, y]).length = data.length + 2 := by simp
    omega)]
  simp only [Option.some_bind]
  rw [show 9 + data.length - (9 + data.length - 2) = 2 by omega]
  rw [show (a :: b :: d :: e :: 0 :: hi :: lo :: (data ++ [x, y])).drop
        (9 + data.length - 2) = [x, y] by
    simp only [← List.cons_append]
    exact List.drop_left' (by simp; omega)]
  rfl

/-! ### Shape lemmas: the value of Bytes and BytesExtended on each region -/

theorem bytes_case1 (c : Capdu) (hd : c.Data = []) (hn : c.Ne = 0) :
    c.Bytes = .ok [c.CLA, c.INS, c.P1, c.P2] := by
  unfold Capdu.Bytes
  rw [if_neg (by simp [hd]), if_neg (by omega), if_neg (by simp [hd]; omega),
    if_pos (by simp [hd, hn])]

theorem bytes_case2 (c : Capdu) (hd : c.Data = [])
    (h1 : 1 ≤ c.Ne) (h2 : c.Ne ≤ 256) :
    c.Bytes = .ok [c.CLA, c.INS, c.P1, c.P2, c.Ne % 256] := by
  unfold Capdu.Bytes
  rw [if_neg (by simp [hd]), if_neg (by omega), if_neg (by simp [hd]; omega),
    if_neg (by simp [hd]; omega), if_pos (by simp [hd]; omega)]

theorem bytes_case3 (c : Capdu) (h1 : 1 ≤ c.Data.length)
    (h2 : c.Data.length ≤ 255) (hn : c.Ne = 0) :
    c.Bytes = .ok (c.CLA :: c.INS :: c.P1 :: c.P2 :: c.Data.length :: c.Data) := by
  unfold Capdu.Bytes
  rw [if_neg (by omega), if_neg (by omega), if_neg (by omega),
    if_neg (by omega), if_neg (by omega), if_pos (by omega)]
  rw [show c.Data.length % 256 = c.Data.length by omega]
  rfl

theorem bytes_case4 (c : Capdu) (h1 : 1 ≤ c.Data.length)
    (h2 : c.Data.length ≤ 255) (h3 : 1 ≤ c.Ne) (h4 : c.Ne ≤ 256) :
    c.Bytes
      = .ok (c.CLA :: c.INS :: c.P1 :: c.P2 :: c.Data.length
          :: (c.Data ++ [c.Ne % 256])) := by
  unfold Capdu.Bytes
  rw [if_neg (by omega), if_neg (by omega), if_neg (by omega),
    if_neg (by omega), if_neg (by omega), if_neg (by omega)]
  rw [show c.Data.length % 256 = c.Data.length by omega]
  simp

theorem bytes_delegates (c : Capdu) (hd : c.Data.length ≤ 65535)
    (hn : c.Ne ≤ 65536) (h : 255 < c.Data.length ∨ 256 < c.Ne) :
    c.Bytes = c.BytesExtended := by
  unfold Capdu.Bytes
  rw [if_neg (by omega), if_neg (by omega), if_pos h]

theorem bytesExtended_data_nil (c : Capdu) (hd : c.Data = []) (hn : c.Ne ≤ 65536) :
    c.BytesExtended
      = .ok [c.CLA, c.INS, c.P1, c.P2, 0, c.Ne / 256 % 256, c.Ne % 256] := by
  unfold Capdu.BytesExtended
  rw [if_neg (by simp [hd]), if_neg (by omega)]
  rw [if_neg (by simp [hd]), if_pos (by simp [hd])]
  simp

theorem bytesExtended_case3 (c : Capdu) (h1 : 1 ≤ c.Data.length)
    (h2 : c.Data.length ≤ 65535) (hn : c.Ne = 0) :
    c.BytesExtended
      = .ok (c.CLA :: c.INS :: c.P1 :: c.P2 :: 0 :: (c.Data.length / 256 % 256)
          :: (c.Data.length % 256) :: c.Data) := by
  unfold Capdu.BytesExtended
  rw [if_neg (by omega), if_neg (by omega), if_pos (by omega),
    if_neg (by omega)]
  simp

theorem bytesExtended_case4 (c : Capdu) (h1 : 1 ≤ c.Data.length)
    (h2 : c.Data.length ≤ 65535) (h3 : 1 ≤ c.Ne) (h4 : c.Ne ≤ 65536) :
    c.BytesExtended
      = .ok (c.CLA :: c.INS :: c.P1 :: c.P2 :: 0 :: (c.Data.length / 256 % 256)
          :: (c.Data.length % 256) :: (c.Data ++ [c.Ne / 256 % 256, c.Ne % 256])) := by
  unfold Capdu.BytesExtended
  rw [if_neg (by omega), if_neg (by omega), if_pos (by omega),
    if_pos (by omega)]
  simp

/-! ### Shape lemmas for the response codec -/

theorem parseRapdu_trailer (s1 s2 : Nat) :
    ParseRapdu [s1, s2] = some (.ok ⟨[], s1, s2⟩) := rfl

theorem parseRapdu_data (data : List Nat) (s1 s2 : Nat)
    (h1 : 1 ≤ data.length) (h2 : data.length ≤ 65536) :
    ParseRapdu (data ++ [s1, s2]) = some (.ok ⟨data, s1, s2⟩) := by
  have hlen : (data ++ [s1, s2]).length = data.length + 2 := by simp
  unfold ParseRapdu
  rw [if_neg (by rw [hlen]; omega), if_neg (by rw [hlen]; omega)]
  unfold slice?
  rw [if_pos (by rw [hlen]; omega)]
  simp only [List.drop_zero, Option.some_bind, hlen]
  rw [show data.length + 2 - 2 = data.length by omega,
    show data.length - 0 = data.length by omega, List.take_left' rfl]
  rw [idx?_append_right data [s1, s2] data.length (le_refl _), Nat.sub_self]
  rw [show data.length + 2 - 1 = data.length + 1 by omega,
    idx?_append_right data [s1, s2] (data.length + 1) (by omega),
    show data.length + 1 - data.length = 1 by omega]
  rfl

/-! ### Master characterizations of the two Lc-validated parser paths -/

/-- Master lemma for the standard (nonzero 1-byte Lc) path: for a body of
length ≥ 1 after a nonzero byte at offset 4, the parse succeeds exactly
when the Lc byte equals the remaining length (Case 3) or one less (Case 4),
and fails with the Lc length-mismatch error otherwise. -/
theorem parse_std_general (a b d e k : Nat) (rest : List Nat)
    (hk : k ≠ 0) (hm1 : 1 ≤ rest.length) (hm2 : rest.length ≤ 65539) :
    ParseCapdu (a :: b :: d :: e :: k :: rest) =
      if k = rest.length then
        some (.ok ⟨a, b, d, e, rest, 0⟩)
      else if k + 1 = rest.length then
        some (.ok ⟨a, b, d, e, rest.take k,
          if rest.getD k 0 = 0 then 256 else rest.getD k 0⟩)
      else some (.error (.invalidLcStd k)) := by
  have hlen : (a :: b :: d :: e :: k :: rest).length = 5 + rest.length := by
    simp only [List.length_cons]; omega
  unfold ParseCapdu
  rw [if_neg (by rw [hlen]; omega)]
  show (Option.bind _ _) = _
  simp only [idx?_cons_zero, idx?_cons_add_one, Option.some_bind]
  rw [if_neg (by rw [hlen]; omega), if_neg (by rw [hlen]; omega)]
  rw [if_neg hk, hlen]
  push_cast
  by_cases h3 : k = rest.length
  · subst h3
    rw [if_neg (by omega)]
    unfold slice?
    rw [if_pos (by omega)]
    simp only [List.drop_succ_cons, List.drop_zero, Option.some_bind]
    rw [show 5 + rest.length - 5 = rest.length by omega, List.take_length]
    rw [if_pos (by omega), if_pos trivial]
  · by_cases h4 : k + 1 = rest.length
    · rw [if_neg (by omega)]
      unfold slice?
      rw [if_pos (by omega)]
      simp only [List.drop_succ_cons, List.drop_zero, Option.some_bind]
      rw [show 5 + k - 5 = k by omega]
      rw [if_neg (by rw [List.length_take]; omega)]
      rw [show 5 + rest.length - 1 = k + 5 by omega, idx?_cons5,
        idx?_getD rest k (by omega)]
      simp only [Option.some_bind]
      rw [if_neg h3, if_pos h4]
    · rw [if_pos (by omega)]
      rw [if_neg h3, if_neg h4]

/-- Master lemma for the extended (zero-sentinel, 2-byte Lc) path: with at
least one byte after the 7-byte prefix, the parse succeeds exactly when the
big-endian Lc equals the remaining length (Case 3) or two less (Case 4),
and fails with the extended Lc length-mismatch error otherwise. -/
theorem parse_ext_general (a b d e hi lo : Nat) (rest : List Nat)
    (hm1 : 1 ≤ rest.length) (hm2 : rest.length ≤ 65537) :
    ParseCapdu (a :: b :: d :: e :: 0 :: hi :: lo :: rest) =
      if hi * 256 + lo = rest.length then
        some (.ok ⟨a, b, d, e, rest, 0⟩)
      else if hi * 256 + lo + 2 = rest.length then
        some (.ok ⟨a, b, d, e, rest.take (hi * 256 + lo),
          if rest.getD (rest.length - 2) 0 * 256 + rest.getD (rest.length - 1) 0 = 0
          then 65536
          else rest.getD (rest.length - 2) 0 * 256 + rest.getD (rest.length - 1) 0⟩)
      else some (.error (.invalidLcExt (hi * 256 + lo))) := by
  have hlen : (a :: b :: d :: e :: 0 :: hi :: lo :: rest).length = 7 + rest.length := by
    simp only [List.length_cons]; omega
  unfold ParseCapdu
  rw [if_neg (by rw [hlen]; omega)]
  show (Option.bind _ _) = _
  simp only [idx?_cons_zero, idx?_cons_add_one, Option.some_bind]
  rw [if_neg (by rw [hlen]; omega), if_neg (by rw [hlen]; omega)]
  rw [if_pos trivial]
  rw [if_neg (by rw [hlen]; omega), if_neg (by rw [hlen]; omega)]
  unfold sliceFrom?
  rw [if_pos (by rw [hlen]; omega)]
  simp only [List.drop_succ_cons, List.drop_zero, Option.some_bind, beUint16?_cons,
    hlen]
  push_cast
  by_cases h3 : hi * 256 + lo = rest.length
  · rw [if_neg (by omega)]
    unfold slice?
    rw [if_pos (by simp only [List.length_cons]; omega)]
    simp only [List.drop_succ_cons, List.drop_zero, Option.some_bind]
    rw [show 7 + (hi * 256 + lo) - 7 = hi * 256 + lo by omega, h3, List.take_length]
    rw [if_pos (by omega)]
    simp
  · by_cases h4 : hi * 256 + lo + 2 = rest.length
    · rw [if_neg (by omega)]
      unfold slice?
      rw [if_pos (by simp only [List.length_cons]; omega)]
      simp only [List.drop_succ_cons, List.drop_zero, Option.some_bind]
      rw [show 7 + (hi * 256 + lo) - 7 = hi * 256 + lo by omega]
      rw [if_neg (by rw [List.length_take]; omega)]
      rw [if_pos (by simp only [List.length_cons]; omega)]
      simp only [Option.some_bind]
      rw [show 7 + rest.length - (7 + rest.length - 2) = 2 by omega]
      rw [show 7 + rest.length - 2 = (rest.length - 2) + 7 by omega, drop_cons7]
      rw [List.take_of_length_le (by rw [List.length_drop]; omega)]
      rw [beUint16?_isSome _ (by rw [List.length_drop]; omega)]
      rw [drop_headI_getD, List.tail_drop, drop_headI_getD,
        show rest.length - 2 + 1 = rest.length - 1 by omega]
      simp only [Option.some_bind]
      rw [if_neg h3, if_pos h4]
    · rw [if_pos (by omega)]
      rw [if_neg h3, if_neg h4]

/-! ### Claim theorems -/

/-- Claim C6: boundary rejection. ParseCapdu returns its length error for
every input length outside [4, 65544] (in particular lengths 3 and 65545);
ParseRapdu returns its length error for every length outside [2, 65538]
(in particular 1 and 65539); Capdu.Bytes returns a range error when the
data length is 65536 or Ne is 65537. -/
theorem claim_C6_boundary_rejection :
    (∀ c : List Nat, c.length < 4 ∨ 65544 < c.length →
      ParseCapdu c = some (.error (.invalidCapduLen c.length))) ∧
    (∀ b : List Nat, b.length < 2 ∨ 65538 < b.length →
      ParseRapdu b = some (.error (.invalidRapduLen b.length))) ∧
    (∀ c : Capdu, c.Data.length = 65536 ∨ c.Ne = 65537 →
      ∃ e, c.Bytes = .error e ∧
        (e = .dataTooLong c.Data.length ∨ e = .neTooBig c.Ne)) := by
  refine ⟨?_, ?_, ?_⟩
  · intro c h
    unfold ParseCapdu
    rw [if_pos h]
  · intro b h
    unfold ParseRapdu
    rw [if_pos h]
  · intro c h
    unfold Capdu.Bytes
    by_cases h1 : 65535 < c.Data.length
    · exact ⟨_, by rw [if_pos h1], Or.inl rfl⟩
    · have h2 : 65536 < c.Ne := by omega
      exact ⟨_, by rw [if_neg h1, if_pos h2], Or.inr rfl⟩

/-- Claim C6 witness: the boundary instances named by the claim. -/
theorem claim_C6_witness :
    ParseCapdu [0, 0, 0] = some (.error (.invalidCapduLen ([0, 0, 0] : List Nat).length)) ∧
    ParseCapdu (List.replicate 65545 0)
      = some (.error (.invalidCapduLen (List.replicate 65545 (0 : Nat)).length)) ∧
    ParseRapdu [0] = some (.error (.invalidRapduLen ([0] : List Nat).length)) ∧
    ParseRapdu (List.replicate 65539 0)
      = some (.error (.invalidRapduLen (List.replicate 65539 (0 : Nat)).length)) ∧
    (∃ e, (Capdu.mk 0 0 0 0 (List.replicate 65536 0) 0).Bytes = .error e ∧
      (e = .dataTooLong (Capdu.mk 0 0 0 0 (List.replicate 65536 0) 0).Data.length ∨
        e = .neTooBig (Capdu.mk 0 0 0 0 (List.replicate 65536 0) 0).Ne)) ∧
    (∃ e, (Capdu.mk 0 0 0 0 [] 65537).Bytes = .error e ∧
      (e = .dataTooLong (Capdu.mk 0 0 0 0 [] 65537).Data.length ∨
        e = .neTooBig (Capdu.mk 0 0 0 0 [] 65537).Ne)) :=
  ⟨claim_C6_boundary_rejection.1 [0, 0, 0] (by simp),
   claim_C6_boundary_rejection.1 (List.replicate 65545 0)
     (by simp only [List.length_replicate]; omega),
   claim_C6_boundary_rejection.2.1 [0] (by simp),
   claim_C6_boundary_rejection.2.1 (List.replicate 65539 0)
     (by simp only [List.length_replicate]; omega),
   claim_C6_boundary_rejection.2.2 (Capdu.mk 0 0 0 0 (List.replicate 65536 0) 0)
     (Or.inl (by simp only [List.length_replicate])),
   claim_C6_boundary_rejection.2.2 (Capdu.mk 0 0 0 0 [] 65537) (Or.inr rfl)⟩

/-- Claim C7: status classification. For every response whose status bytes
are genuine bytes, IsSuccess holds iff SW1 = 0x61 or SW = 0x9000, IsWarning
iff SW1 is 0x62 or 0x63, IsError iff SW1 is 0x64, 0x65 or in [0x67, 0x6F],
and SW1 = 0x60 or 0x66 satisfies none of the three predicates. -/
theorem claim_C7_status_classification :
    ∀ r : Rapdu, r.SW1 < 256 → r.SW2 < 256 →
      (r.IsSuccess = true ↔ (r.SW1 = 0x61 ∨ r.SW = 0x9000)) ∧
      (r.IsWarning = true ↔ (r.SW1 = 0x62 ∨ r.SW1 = 0x63)) ∧
      (r.IsError = true ↔
        (r.SW1 = 0x64 ∨ r.SW1 = 0x65 ∨ (0x67 ≤ r.SW1 ∧ r.SW1 ≤ 0x6F))) ∧
      ((r.SW1 = 0x60 ∨ r.SW1 = 0x66) →
        r.IsSuccess = false ∧ r.IsWarning = false ∧ r.IsError = false) := by
  intro r h1 h2
  have hsw : r.SW = r.SW1 * 256 + r.SW2 := rfl
  have hS : r.IsSuccess = true ↔ (r.SW1 = 0x61 ∨ r.SW = 0x9000) := by
    simp [Rapdu.IsSuccess]
  have hW : r.IsWarning = true ↔ (r.SW1 = 0x62 ∨ r.SW1 = 0x63) := by
    simp [Rapdu.IsWarning]
  have hE : r.IsError = true ↔
      (r.SW1 = 0x64 ∨ r.SW1 = 0x65 ∨ (0x67 ≤ r.SW1 ∧ r.SW1 ≤ 0x6F)) := by
    simp [Rapdu.IsError]
    tauto
  refine ⟨hS, hW, hE, ?_⟩
  intro h60
  refine ⟨?_, ?_, ?_⟩ <;> rw [Bool.eq_false_iff] <;> intro hT
  · rcases hS.mp hT with h | h <;> rw [hsw] at * <;> omega
  · rcases hW.mp hT with h | h <;> omega
  · rcases hE.mp hT with h | h | h <;> omega

/-- Claim C7 witness: concrete classifications, including the unclassified
status bytes 0x60 and 0x66. -/
theorem claim_C7_witness :
    ((Rapdu.mk [] 0x90 0x00).IsSuccess = true ↔
      ((Rapdu.mk [] 0x90 0x00).SW1 = 0x61 ∨ (Rapdu.mk [] 0x90 0x00).SW = 0x9000)) ∧
    ((Rapdu.mk [] 0x60 0x00).IsSuccess = false ∧
      (Rapdu.mk [] 0x60 0x00).IsWarning = false ∧
      (Rapdu.mk [] 0x60 0x00).IsError = false) ∧
    ((Rapdu.mk [] 0x66 0x12).IsSuccess = false ∧
      (Rapdu.mk [] 0x66 0x12).IsWarning = false ∧
      (Rapdu.mk [] 0x66 0x12).IsError = false) :=
  ⟨(claim_C7_status_classification (Rapdu.mk [] 0x90 0x00) (by decide) (by decide)).1,
   (claim_C7_status_classification (Rapdu.mk [] 0x60 0x00) (by decide)
     (by decide)).2.2.2 (Or.inl rfl),
   (claim_C7_status_classification (Rapdu.mk [] 0x66 0x12) (by decide)
     (by decide)).2.2.2 (Or.inr rfl)⟩

/-- Claim C4: minimality. For every Capdu with data length ≤ 255 and
Ne ≤ 256, Bytes succeeds with one of the four standard-regime encodings
(header; header + Le; header + Lc + data; header + Lc + data + Le) and the
output never carries the 0x00 extended sentinel at offset 4 when a body
follows the header. -/
theorem claim_C4_minimality :
    ∀ c : Capdu, c.Data.length ≤ 255 → c.Ne ≤ 256 →
      ∃ out, c.Bytes = .ok out ∧
        (out = [c.CLA, c.INS, c.P1, c.P2] ∨
         out = [c.CLA, c.INS, c.P1, c.P2, c.Ne % 256] ∨
         out = c.CLA :: c.INS :: c.P1 :: c.P2 :: c.Data.length :: c.Data ∨
         out = c.CLA :: c.INS :: c.P1 :: c.P2 :: c.Data.length
           :: (c.Data ++ [c.Ne % 256])) ∧
        (6 ≤ out.length → idx? out 4 ≠ some 0) := by
  intro c hd hn
  by_cases h0 : c.Data.length = 0
  · have hnil : c.Data = [] := List.length_eq_zero.mp h0
    by_cases h1 : c.Ne = 0
    · exact ⟨_, bytes_case1 c hnil h1, Or.inl rfl, by simp⟩
    · refine ⟨_, bytes_case2 c hnil (by omega) hn, Or.inr (Or.inl rfl), by simp⟩
  · by_cases h1 : c.Ne = 0
    · refine ⟨_, bytes_case3 c (by omega) hd h1, Or.inr (Or.inr (Or.inl rfl)), ?_⟩
      intro _ hc
      rw [show (4 : Nat) = 3 + 1 from rfl, idx?_cons_add_one, idx?_cons_add_one,
        idx?_cons_add_one, idx?_cons_add_one, idx?_cons_zero] at hc
      exact h0 (by injection hc)
    · refine ⟨_, bytes_case4 c (by omega) hd (by omega) hn,
        Or.inr (Or.inr (Or.inr rfl)), ?_⟩
      intro _ hc
      rw [show (4 : Nat) = 3 + 1 from rfl, idx?_cons_add_one, idx?_cons_add_one,
        idx?_cons_add_one, idx?_cons_add_one, idx?_cons_zero] at hc
      exact h0 (by injection hc)

/-- Claim C4 witness: a standard Case 4 command with Ne = 256. -/
theorem claim_C4_witness :
    ∃ out, (Capdu.mk 0 0xA4 4 0 [1, 2] 256).Bytes = .ok out ∧
      (out = [0, 0xA4, 4, 0] ∨
       out = [0, 0xA4, 4, 0, 256 % 256] ∨
       out = 0 :: 0xA4 :: 4 :: 0 :: 2 :: [1, 2] ∨
       out = 0 :: 0xA4 :: 4 :: 0 :: 2 :: ([1, 2] ++ [256 % 256])) ∧
      (6 ≤ out.length → idx? out 4 ≠ some 0) :=
  claim_C4_minimality (Capdu.mk 0 0xA4 4 0 [1, 2] 256) (by decide) (by decide)

/-- Claim C3 counterexample: BytesExtended does NOT always emit the 3-byte
Lc field. For data = [] and Ne = 5 the output is the 7-byte
`header 00 00 05` (sentinel + 2-byte Le), not `header 00 00 00 00 05`
(3-byte Lc + 2-byte Le); the all-empty command yields the 7-byte
`header 00 00 00`, not a 9-byte form with both fields. -/
theorem claim_C3_counterexample :
    Capdu.BytesExtended ⟨0, 0, 0, 0, [], 5⟩ = .ok [0, 0, 0, 0, 0, 0, 5] ∧
    Capdu.BytesExtended ⟨0, 0, 0, 0, [], 5⟩ ≠ .ok [0, 0, 0, 0, 0, 0, 0, 0, 5] ∧
    Capdu.BytesExtended ⟨0, 0, 0, 0, [], 0⟩ = .ok [0, 0, 0, 0, 0, 0, 0] ∧
    Capdu.BytesExtended ⟨0, 0, 0, 0, [], 0⟩ ≠ .ok [0, 0, 0, 0, 0, 0, 0, 0, 0] := by
  refine ⟨rfl, ?_, rfl, ?_⟩ <;> decide

/-- Claim C3 (amended): BytesExtended always emits the 0x00 sentinel at
offset 4; it emits the 2-byte big-endian data length (completing the 3-byte
Lc field) followed by the data exactly when data is nonempty; the trailing
2-byte Le field is omitted exactly when data is nonempty and Ne = 0 (it is
present whenever Ne > 0 or data is empty); the all-empty command still ends
in the literal bytes 0x00 0x00, which parse back as Ne = 65536. -/
theorem claim_C3_amended :
    ∀ c : Capdu, c.Data.length ≤ 65535 → c.Ne ≤ 65536 →
      ∃ out, c.BytesExtended = .ok out ∧
        idx? out 4 = some 0 ∧
        (1 ≤ c.Data.length →
          out.take 7 = [c.CLA, c.INS, c.P1, c.P2, 0,
            c.Data.length / 256 % 256, c.Data.length % 256] ∧
          (out.drop 7).take c.Data.length = c.Data ∧
          out.length = (if 1 ≤ c.Ne then 9 else 7) + c.Data.length) ∧
        (c.Data.length = 0 → out.length = 7) ∧
        (c.Data.length = 0 ∧ 1 ≤ c.Ne →
          out = [c.CLA, c.INS, c.P1, c.P2, 0, c.Ne / 256 % 256, c.Ne % 256]) ∧
        (c.Data.length = 0 ∧ c.Ne = 0 →
          out = [c.CLA, c.INS, c.P1, c.P2, 0, 0, 0] ∧
          ParseCapdu out = some (.ok ⟨c.CLA, c.INS, c.P1, c.P2, [], 65536⟩)) := by
  intro c hd hn
  by_cases h0 : c.Data.length = 0
  · have hnil : c.Data = [] := List.length_eq_zero.mp h0
    refine ⟨_, bytesExtended_data_nil c hnil hn, rfl, by omega, by simp, ?_, ?_⟩
    · intro _
      rfl
    · rintro ⟨-, h1⟩
      rw [h1]
      exact ⟨rfl, parse_case2_ext c.CLA c.INS c.P1 c.P2 0 0⟩
  · by_cases h1 : c.Ne = 0
    · refine ⟨_, bytesExtended_case3 c (by omega) hd h1, rfl, ?_, by omega,
        by omega, by omega⟩
      intro _
      refine ⟨rfl, ?_, ?_⟩
      · show c.Data.take c.Data.length = c.Data
        exact List.take_length c.Data
      · simp only [List.length_cons, if_neg (by omega : ¬1 ≤ c.Ne)]
        omega
    · refine ⟨_, bytesExtended_case4 c (by omega) hd (by omega) hn, rfl, ?_,
        by omega, by omega, by omega⟩
      intro _
      refine ⟨rfl, ?_, ?_⟩
      · show (c.Data ++ [c.Ne / 256 % 256, c.Ne % 256]).take c.Data.length = c.Data
        exact List.take_left' rfl
      · simp only [List.length_cons, List.length_append, if_pos (by omega : 1 ≤ c.Ne)]
        simp
        omega

/-- Claim C8: non-conformant HID variant. Every 6-byte command whose byte
at offset 4 is 0x00 parses to empty data with Ne = 256 when the final byte
is 0x00 and fails with the HID Le error otherwise; conversely the HID Le
error only arises from exactly that input shape. -/
theorem claim_C8_hid_variant :
    (∀ a b d e : Nat,
      ParseCapdu [a, b, d, e, 0, 0] = some (.ok ⟨a, b, d, e, [], 256⟩)) ∧
    (∀ a b d e x : Nat, x ≠ 0 →
      ParseCapdu [a, b, d, e, 0, x] = some (.error (.invalidLeHid x))) ∧
    (∀ (c : List Nat) (le : Nat),
      ParseCapdu c = some (.error (.invalidLeHid le)) →
      c.length = 6 ∧ idx? c 4 = some 0 ∧ idx? c 5 = some le ∧ le ≠ 0) := by
  refine ⟨fun a b d e => parse_hid_ok a b d e,
    fun a b d e x hx => parse_hid_err a b d e x hx, ?_⟩
  intro c le h
  by_cases hg : c.length < 4 ∨ 65544 < c.length
  · unfold ParseCapdu at h
    rw [if_pos hg] at h
    simp at h
  · push_neg at hg
    obtain ⟨a, b, d, e, rest, rfl⟩ := exists_cons4 c (by omega)
    have hrl : (a :: b :: d :: e :: rest).length = 4 + rest.length := by
      simp only [List.length_cons]; omega
    by_cases h4 : rest.length = 0
    · rw [List.length_eq_zero.mp h4] at h ⊢
      rw [parse_case1] at h
      simp at h
    · obtain ⟨k, rest2, rfl⟩ : ∃ k rest2, rest = k :: rest2 := by
        cases rest with
        | nil => simp at h4
        | cons k rest2 => exact ⟨k, rest2, rfl⟩
      by_cases h5 : rest2.length = 0
      · rw [List.length_eq_zero.mp h5] at h ⊢
        rw [parse_case2_std] at h
        split at h <;> simp at h
      · by_cases hk : k = 0
        · subst hk
          obtain ⟨x, rest3, rfl⟩ : ∃ x rest3, rest2 = x :: rest3 := by
            cases rest2 with
            | nil => simp at h5
            | cons x rest3 => exact ⟨x, rest3, rfl⟩
          by_cases h6 : rest3.length = 0
          · rw [List.length_eq_zero.mp h6] at h ⊢
            by_cases hx : x = 0
            · subst hx
              rw [parse_hid_ok] at h
              simp at h
            · rw [parse_hid_err _ _ _ _ _ hx] at h
              simp only [Option.some.injEq, Except.error.injEq,
                ApduErr.invalidLeHid.injEq] at h
              subst h
              exact ⟨rfl, rfl, rfl, hx⟩
          · obtain ⟨y, rest4, rfl⟩ : ∃ y rest4, rest3 = y :: rest4 := by
              cases rest3 with
              | nil => simp at h6
              | cons y rest4 => exact ⟨y, rest4, rfl⟩
            by_cases h7 : rest4.length = 0
            · rw [List.length_eq_zero.mp h7] at h ⊢
              rw [parse_case2_ext] at h
              simp at h
            · rw [parse_ext_general a b d e x y rest4 (by omega)
                (by simp only [List.length_cons] at hg; omega)] at h
              split at h
              · simp at h
              · split at h <;> simp at h
        · rw [parse_std_general a b d e k rest2 hk (by omega)
            (by simp only [List.length_cons] at hg; omega)] at h
          split at h
          · simp at h
          · split at h <;> simp at h

/-- Claim C8 witness: the 6-byte HID shapes, accepted and rejected. -/
theorem claim_C8_witness :
    ParseCapdu [0x80, 0xF2, 0xE0, 2, 0, 0]
      = some (.ok ⟨0x80, 0xF2, 0xE0, 2, [], 256⟩) ∧
    ParseCapdu [0x80, 0xF2, 0xE0, 2, 0, 7] = some (.error (.invalidLeHid 7)) ∧
    (([0x80, 0xF2, 0xE0, 2, 0, 7] : List Nat).length = 6 ∧
      idx? [0x80, 0xF2, 0xE0, 2, 0, 7] 4 = some 0 ∧
      idx? [0x80, 0xF2, 0xE0, 2, 0, 7] 5 = some 7 ∧ (7 : Nat) ≠ 0) :=
  ⟨claim_C8_hid_variant.1 0x80 0xF2 0xE0 2,
   claim_C8_hid_variant.2.1 0x80 0xF2 0xE0 2 7 (by decide),
   claim_C8_hid_variant.2.2 [0x80, 0xF2, 0xE0, 2, 0, 7] 7
     (claim_C8_hid_variant.2.1 0x80 0xF2 0xE0 2 7 (by decide))⟩

/-- Claim C5: Ne zero-mapping. Serializing Ne = 256 in the standard regime
emits a final Le byte 0x00, serializing Ne = 65536 emits the final Le bytes
0x00 0x00; parsing a standard encoding with Le byte 0x00 yields Ne = 256
(Case 2 and Case 4) and an extended encoding with Le 0x00 0x00 yields
Ne = 65536 (Case 2 and Case 4); a successful parse with Ne = 0 only arises
from the Le-less shapes (Case 1, Case 3 standard, Case 3 extended), so a
present Le field never produces Ne = 0. -/
theorem claim_C5_ne_zero_mapping :
    (∀ c : Capdu, c.Data.length ≤ 255 → c.Ne = 256 →
      ∃ out, c.Bytes = .ok out ∧ idx? out (out.length - 1) = some 0) ∧
    (∀ c : Capdu, c.Data.length ≤ 65535 → c.Ne = 65536 →
      ∃ out, c.Bytes = .ok out ∧ out.drop (out.length - 2) = [0, 0]) ∧
    (∀ a b d e : Nat,
      ParseCapdu [a, b, d, e, 0] = some (.ok ⟨a, b, d, e, [], 256⟩)) ∧
    (∀ (a b d e : Nat) (data : List Nat), 1 ≤ data.length → data.length ≤ 255 →
      ParseCapdu (a :: b :: d :: e :: data.length :: (data ++ [0]))
        = some (.ok ⟨a, b, d, e, data, 256⟩)) ∧
    (∀ a b d e : Nat,
      ParseCapdu [a, b, d, e, 0, 0, 0] = some (.ok ⟨a, b, d, e, [], 65536⟩)) ∧
    (∀ (a b d e hi lo : Nat) (data : List Nat), hi * 256 + lo = data.length →
      1 ≤ data.length → data.length ≤ 65535 →
      ParseCapdu (a :: b :: d :: e :: 0 :: hi :: lo :: (data ++ [0, 0]))
        = some (.ok ⟨a, b, d, e, data, 65536⟩)) ∧
    (∀ (c : List Nat) (u : Capdu), ParseCapdu c = some (.ok u) → u.Ne = 0 →
      c.length = 4 ∨ c.length = 5 + u.Data.length ∨ c.length = 7 + u.Data.length) := by
  refine ⟨?_, ?_, ?_, ?_, ?_, ?_, ?_⟩
  · -- serializing Ne = 256 in the standard regime: trailing Le byte is 0x00
    intro c hd hn
    by_cases h0 : c.Data.length = 0
    · have hnil : c.Data = [] := List.length_eq_zero.mp h0
      refine ⟨_, bytes_case2 c hnil (by omega) (by omega), ?_⟩
      rw [hn]
      rfl
    · refine ⟨_, bytes_case4 c (by omega) hd (by omega) (by omega), ?_⟩
      have hlen : (c.CLA :: c.INS :: c.P1 :: c.P2 :: c.Data.length
          :: (c.Data ++ [c.Ne % 256])).length = 6 + c.Data.length := by
        simp; omega
      rw [hlen, show 6 + c.Data.length - 1 = c.Data.length + 5 by omega,
        idx?_cons5, idx?_append_right c.Data _ _ (le_refl _), Nat.sub_self, hn]
      rfl
  · -- serializing Ne = 65536: trailing Le bytes are 0x00 0x00
    intro c hd hn
    rw [bytes_delegates c hd (by omega) (by omega)]
    by_cases h0 : c.Data.length = 0
    · have hnil : c.Data = [] := List.length_eq_zero.mp h0
      refine ⟨_, bytesExtended_data_nil c hnil (by omega), ?_⟩
      rw [hn]
      rfl
    · refine ⟨_, bytesExtended_case4 c (by omega) hd (by omega) (by omega), ?_⟩
      have hlen : (c.CLA :: c.INS :: c.P1 :: c.P2 :: 0 :: (c.Data.length / 256 % 256)
          :: (c.Data.length % 256) :: (c.Data ++ [c.Ne / 256 % 256, c.Ne % 256])).length
          = 9 + c.Data.length := by
        simp; omega
      rw [hlen, show 9 + c.Data.length - 2 = c.Data.length + 7 by omega, drop_cons7,
        List.drop_left' rfl, hn]
  · intro a b d e
    exact parse_case2_std a b d e 0
  · intro a b d e data h1 h2
    rw [parse_case4_std a b d e 0 data h1 h2]
    norm_num
  · intro a b d e
    exact parse_case2_ext a b d e 0 0
  · intro a b d e hi lo data hn h1 h2
    rw [parse_case4_ext a b d e hi lo 0 0 data hn h1 h2]
    norm_num
  · -- a successful parse with Ne = 0 comes from a shape without an Le field
    intro c u h hne
    by_cases hg : c.length < 4 ∨ 65544 < c.length
    · unfold ParseCapdu at h
      rw [if_pos hg] at h
      simp at h
    · push_neg at hg
      obtain ⟨a, b, d, e, rest, rfl⟩ := exists_cons4 c (by omega)
      by_cases h4 : rest.length = 0
      · rw [List.length_eq_zero.mp h4] at h ⊢
        rw [parse_case1] at h
        simp only [Option.some.injEq, Except.ok.injEq] at h
        left
        rfl
      · obtain ⟨k, rest2, rfl⟩ : ∃ k rest2, rest = k :: rest2 := by
          cases rest with
          | nil => simp at h4
          | cons k rest2 => exact ⟨k, rest2, rfl⟩
        by_cases h5 : rest2.length = 0
        · rw [List.length_eq_zero.mp h5] at h ⊢
          rw [parse_case2_std] at h
          simp only [Option.some.injEq, Except.ok.injEq] at h
          rw [← h] at hne
          split at hne
          · simp at hne
          · exact absurd hne (by assumption)
        · by_cases hk : k = 0
          · subst hk
            obtain ⟨x, rest3, rfl⟩ : ∃ x rest3, rest2 = x :: rest3 := by
              cases rest2 with
              | nil => simp at h5
              | cons x rest3 => exact ⟨x, rest3, rfl⟩
            by_cases h6 : rest3.length = 0
            · rw [List.length_eq_zero.mp h6] at h ⊢
              by_cases hx : x = 0
              · subst hx
                rw [parse_hid_ok] at h
                simp only [Option.some.injEq, Except.ok.injEq] at h
                rw [← h] at hne
                simp at hne
              · rw [parse_hid_err _ _ _ _ _ hx] at h
                simp at h
            · obtain ⟨y, rest4, rfl⟩ : ∃ y rest4, rest3 = y :: rest4 := by
                cases rest3 with
                | nil => simp at h6
                | cons y rest4 => exact ⟨y, rest4, rfl⟩
              by_cases h7 : rest4.length = 0
              · rw [List.length_eq_zero.mp h7] at h ⊢
                rw [parse_case2_ext] at h
                simp only [Option.some.injEq, Except.ok.injEq] at h
                rw [← h] at hne
                split at hne
                · simp at hne
                · exact absurd hne (by assumption)
              · rw [parse_ext_general a b d e x y rest4 (by omega)
                  (by simp only [List.length_cons] at hg; omega)] at h
                split at h
                · next heq =>
                    simp only [Option.some.injEq, Except.ok.injEq] at h
                    right; right
                    rw [← h]
                    simp only [List.length_cons]
                    omega
                · split at h
                  · simp only [Option.some.injEq, Except.ok.injEq] at h
                    rw [← h] at hne
                    split at hne
                    · simp at hne
                    · exact absurd hne (by assumption)
                  · simp at h
          · rw [parse_std_general a b d e k rest2 hk (by omega)
              (by simp only [List.length_cons] at hg; omega)] at h
            split at h
            · next heq =>
                simp only [Option.some.injEq, Except.ok.injEq] at h
                right; left
                rw [← h]
                simp only [List.length_cons]
                omega
            · split at h
              · simp only [Option.some.injEq, Except.ok.injEq] at h
                rw [← h] at hne
                split at hne
                · simp at hne
                · exact absurd hne (by assumption)
              · simp at h

/-- Claim C5 witness: concrete encodings with the zero Le byte(s). -/
theorem claim_C5_witness :
    (∃ out, (Capdu.mk 1 2 3 4 [9] 256).Bytes = .ok out ∧
      idx? out (out.length - 1) = some 0) ∧
    (∃ out, (Capdu.mk 1 2 3 4 [9] 65536).Bytes = .ok out ∧
      out.drop (out.length - 2) = [0, 0]) ∧
    ParseCapdu (1 :: 2 :: 3 :: 4 :: ([9] : List Nat).length :: ([9] ++ [0]))
      = some (.ok ⟨1, 2, 3, 4, [9], 256⟩) ∧
    ParseCapdu (1 :: 2 :: 3 :: 4 :: 0 :: 0 :: 1 :: ([9] ++ [0, 0]))
      = some (.ok ⟨1, 2, 3, 4, [9], 65536⟩) ∧
    (([1, 2, 3, 4] : List Nat).length = 4 ∨
      ([1, 2, 3, 4] : List Nat).length = 5 + (Capdu.mk 1 2 3 4 [] 0).Data.length ∨
      ([1, 2, 3, 4] : List Nat).length = 7 + (Capdu.mk 1 2 3 4 [] 0).Data.length) :=
  ⟨claim_C5_ne_zero_mapping.1 (Capdu.mk 1 2 3 4 [9] 256) (by decide) rfl,
   claim_C5_ne_zero_mapping.2.1 (Capdu.mk 1 2 3 4 [9] 65536) (by decide) rfl,
   claim_C5_ne_zero_mapping.2.2.2.1 1 2 3 4 [9] (by decide) (by decide),
   claim_C5_ne_zero_mapping.2.2.2.2.2.1 1 2 3 4 0 1 [9] rfl (by decide) (by decide),
   claim_C5_ne_zero_mapping.2.2.2.2.2.2 [1, 2, 3, 4] ⟨1, 2, 3, 4, [], 0⟩
     (by decide) rfl⟩

/-- Claim C1 counterexample: the round trip fails for BytesExtended on the
all-empty command. Its forced-extended encoding is `00 00 00 00 00 00 00`,
which parses back with Ne = 65536 instead of Ne = 0. -/
theorem claim_C1_counterexample :
    Capdu.BytesExtended ⟨0, 0, 0, 0, [], 0⟩ = .ok [0, 0, 0, 0, 0, 0, 0] ∧
    ParseCapdu [0, 0, 0, 0, 0, 0, 0] = some (.ok ⟨0, 0, 0, 0, [], 65536⟩) ∧
    (Capdu.mk 0 0 0 0 [] 65536) ≠ (Capdu.mk 0 0 0 0 [] 0) := by
  refine ⟨rfl, rfl, ?_⟩
  decide

/-- Claim C1 (amended): round trip. For every valid Command unit (data
length ≤ 65535, Ne ≤ 65536), ParseCapdu(Bytes c) = c; the same holds for
the forced-extended encoding BytesExtended except for the all-empty
command (data empty and Ne = 0), whose encoding decodes to Ne = 65536; for
every valid Response unit (data length ≤ 65536), ParseRapdu(Bytes r) = r. -/
theorem claim_C1_roundtrip :
    (∀ c : Capdu, c.Data.length ≤ 65535 → c.Ne ≤ 65536 →
      ∃ out, c.Bytes = .ok out ∧ ParseCapdu out = some (.ok c)) ∧
    (∀ c : Capdu, c.Data.length ≤ 65535 → c.Ne ≤ 65536 →
      ¬(c.Data = [] ∧ c.Ne = 0) →
      ∃ out, c.BytesExtended = .ok out ∧ ParseCapdu out = some (.ok c)) ∧
    (∀ r : Rapdu, r.Data.length ≤ 65536 →
      ∃ out, r.Bytes = .ok out ∧ ParseRapdu out = some (.ok r)) := by
  have hext : ∀ c : Capdu, c.Data.length ≤ 65535 → c.Ne ≤ 65536 →
      ¬(c.Data = [] ∧ c.Ne = 0) →
      ∃ out, c.BytesExtended = .ok out ∧ ParseCapdu out = some (.ok c) := by
    intro c hd hn hne
    obtain ⟨a, b, d, e, data, ne⟩ := c
    simp only at hd hn hne ⊢
    by_cases h0 : data.length = 0
    · have hnil : data = [] := List.length_eq_zero.mp h0
      subst hnil
      have hne1 : 1 ≤ ne := by
        rcases Nat.eq_zero_or_pos ne with h | h
        · exact absurd ⟨rfl, h⟩ hne
        · exact h
      have hser : (Capdu.mk a b d e [] ne).BytesExtended
          = .ok [a, b, d, e, 0, ne / 256 % 256, ne % 256] :=
        bytesExtended_data_nil _ rfl hn
      refine ⟨_, hser, ?_⟩
      rw [parse_case2_ext]
      have hv : (if ne / 256 % 256 * 256 + ne % 256 = 0 then 65536
          else ne / 256 % 256 * 256 + ne % 256) = ne := by
        split <;> omega
      rw [hv]
    · by_cases h1 : ne = 0
      · subst h1
        have hser : (Capdu.mk a b d e data 0).BytesExtended
            = .ok (a :: b :: d :: e :: 0 :: (data.length / 256 % 256)
                :: (data.length % 256) :: data) :=
          bytesExtended_case3 _ (show 1 ≤ data.length by omega) hd rfl
        refine ⟨_, hser, ?_⟩
        exact parse_case3_ext a b d e (data.length / 256 % 256)
          (data.length % 256) data (by omega) (show 1 ≤ data.length by omega) hd
      · have hser : (Capdu.mk a b d e data ne).BytesExtended
            = .ok (a :: b :: d :: e :: 0 :: (data.length / 256 % 256)
                :: (data.length % 256) :: (data ++ [ne / 256 % 256, ne % 256])) :=
          bytesExtended_case4 _ (show 1 ≤ data.length by omega) hd (show 1 ≤ ne by omega) hn
        refine ⟨_, hser, ?_⟩
        rw [parse_case4_ext a b d e (data.length / 256 % 256) (data.length % 256)
          (ne / 256 % 256) (ne % 256) data (by omega)
          (show 1 ≤ data.length by omega) hd]
        have hv : (if ne / 256 % 256 * 256 + ne % 256 = 0 then 65536
            else ne / 256 % 256 * 256 + ne % 256) = ne := by
          split <;> omega
        rw [hv]
  refine ⟨?_, hext, ?_⟩
  · intro c hd hn
    obtain ⟨a, b, d, e, data, ne⟩ := c
    simp only at hd hn ⊢
    by_cases hstd : data.length ≤ 255 ∧ ne ≤ 256
    · obtain ⟨hd255, hn256⟩ := hstd
      by_cases h0 : data.length = 0
      · have hnil : data = [] := List.length_eq_zero.mp h0
        subst hnil
        by_cases h1 : ne = 0
        · subst h1
          have hser : (Capdu.mk a b d e [] 0).Bytes = .ok [a, b, d, e] :=
            bytes_case1 _ rfl rfl
          exact ⟨_, hser, parse_case1 a b d e⟩
        · have hser : (Capdu.mk a b d e [] ne).Bytes
              = .ok [a, b, d, e, ne % 256] :=
            bytes_case2 _ rfl (show 1 ≤ ne by omega) hn256
          refine ⟨_, hser, ?_⟩
          rw [parse_case2_std]
          have hv : (if ne % 256 = 0 then 256 else ne % 256) = ne := by
            split <;> omega
          rw [hv]
      · by_cases h1 : ne = 0
        · subst h1
          have hser : (Capdu.mk a b d e data 0).Bytes
              = .ok (a :: b :: d :: e :: data.length :: data) :=
            bytes_case3 _ (show 1 ≤ data.length by omega) hd255 rfl
          refine ⟨_, hser, ?_⟩
          exact parse_case3_std a b d e data (show 1 ≤ data.length by omega) hd255
        · have hser : (Capdu.mk a b d e data ne).Bytes
              = .ok (a :: b :: d :: e :: data.length :: (data ++ [ne % 256])) :=
            bytes_case4 _ (show 1 ≤ data.length by omega) hd255 (show 1 ≤ ne by omega) hn256
          refine ⟨_, hser, ?_⟩
          rw [parse_case4_std a b d e (ne % 256) data
            (show 1 ≤ data.length by omega) hd255]
          have hv : (if ne % 256 = 0 then 256 else ne % 256) = ne := by
            split <;> omega
          rw [hv]
    · have hdel : 255 < data.length ∨ 256 < ne := by omega
      have hser : (Capdu.mk a b d e data ne).Bytes
          = (Capdu.mk a b d e data ne).BytesExtended :=
        bytes_delegates _ hd hn hdel
      rw [hser]
      refine hext ⟨a, b, d, e, data, ne⟩ hd hn ?_
      rintro ⟨h1, h2⟩
      simp only at h1 h2
      rw [h1] at hdel
      simp at hdel
      omega
  · intro r hd
    obtain ⟨data, s1, s2⟩ := r
    simp only at hd ⊢
    have hser : (Rapdu.mk data s1 s2).Bytes = .ok (data ++ [s1, s2]) := by
      unfold Rapdu.Bytes
      rw [if_neg (by simp only; omega)]
    refine ⟨_, hser, ?_⟩
    by_cases h0 : data.length = 0
    · have hnil : data = [] := List.length_eq_zero.mp h0
      subst hnil
      exact parseRapdu_trailer s1 s2
    · exact parseRapdu_data data s1 s2 (by omega) hd

/-- Claim C1 witness: round trips of a concrete command (both encodings)
and a concrete response. -/
theorem claim_C1_witness :
    (∃ out, (Capdu.mk 0 0xA4 4 0 [1, 2, 3] 256).Bytes = .ok out ∧
      ParseCapdu out = some (.ok (Capdu.mk 0 0xA4 4 0 [1, 2, 3] 256))) ∧
    (∃ out, (Capdu.mk 0 0xA4 4 0 [1, 2, 3] 256).BytesExtended = .ok out ∧
      ParseCapdu out = some (.ok (Capdu.mk 0 0xA4 4 0 [1, 2, 3] 256))) ∧
    (∃ out, (Rapdu.mk [1, 2, 3] 0x90 0).Bytes = .ok out ∧
      ParseRapdu out = some (.ok (Rapdu.mk [1, 2, 3] 0x90 0))) :=
  ⟨claim_C1_roundtrip.1 _ (by decide) (by decide),
   claim_C1_roundtrip.2.1 _ (by decide) (by decide) (by decide),
   claim_C1_roundtrip.2.2 _ (by decide)⟩

/-- Claim C2: case determination by Lc consistency. For every input of
length in [6, 65544]: if the byte at offset 4 is nonzero, the parse
succeeds exactly when that byte equals body-length − 1 (Case 3 standard)
or body-length − 2 (Case 4 standard), any other value gives the standard
Lc mismatch error, and on success the data is the Lc-byte-long slice
starting right after the Lc byte, with Ne = 0 in Case 3; if the byte at
offset 4 is 0x00 and the length is at least 8, the parse succeeds exactly
when the 2-byte big-endian Lc after the sentinel equals remaining-body −
3 (Case 3 extended) or remaining-body − 5 (Case 4 extended), any other
value gives the extended Lc mismatch error, and on success the data is
the Lc-long slice starting right after the 3-byte Lc field, with Ne = 0
in Case 3. -/
theorem claim_C2_case_determination :
    ∀ c : List Nat, 6 ≤ c.length → c.length ≤ 65544 →
      (∀ k, idx? c 4 = some k → k ≠ 0 →
        ((∃ u, ParseCapdu c = some (.ok u)) ↔
          (k + 5 = c.length ∨ k + 6 = c.length)) ∧
        (k + 5 ≠ c.length → k + 6 ≠ c.length →
          ParseCapdu c = some (.error (.invalidLcStd k))) ∧
        (∀ u, ParseCapdu c = some (.ok u) →
          u.Data = (c.drop 5).take k ∧ (k + 5 = c.length → u.Ne = 0))) ∧
      (idx? c 4 = some 0 → 8 ≤ c.length →
        ∀ lc, beUint16? (c.drop 5) = some lc →
          ((∃ u, ParseCapdu c = some (.ok u)) ↔
            (lc + 7 = c.length ∨ lc + 9 = c.length)) ∧
          (lc + 7 ≠ c.length → lc + 9 ≠ c.length →
            ParseCapdu c = some (.error (.invalidLcExt lc))) ∧
          (∀ u, ParseCapdu c = some (.ok u) →
            u.Data = (c.drop 7).take lc ∧ (lc + 7 = c.length → u.Ne = 0))) := by
  intro c h6 h65
  obtain ⟨a, b, d, e, k0, rest, rfl⟩ := exists_cons5 c (by omega)
  have hrl : (a :: b :: d :: e :: k0 :: rest).length = 5 + rest.length := by
    simp only [List.length_cons]; omega
  constructor
  · intro k hk hk0
    have hkk : k = k0 := by
      rw [show (4 : Nat) = 3 + 1 from rfl] at hk
      simp only [idx?_cons_add_one, idx?_cons_zero, Option.some.injEq] at hk
      omega
    subst hkk
    rw [parse_std_general a b d e k rest hk0 (by omega) (by omega)]
    refine ⟨?_, ?_, ?_⟩
    · constructor
      · rintro ⟨u, hu⟩
        by_contra hno
        push_neg at hno
        rw [if_neg (by omega), if_neg (by omega)] at hu
        simp at hu
      · intro h
        rcases h with h | h
        · rw [if_pos (by omega)]
          exact ⟨_, rfl⟩
        · rw [if_neg (by omega), if_pos (by omega)]
          exact ⟨_, rfl⟩
    · intro hne1 hne2
      rw [if_neg (by omega), if_neg (by omega)]
    · intro u hu
      by_cases hc3 : k = rest.length
      · rw [if_pos hc3] at hu
        simp only [Option.some.injEq, Except.ok.injEq] at hu
        rw [← hu]
        refine ⟨?_, fun _ => rfl⟩
        show rest = rest.take k
        rw [hc3, List.take_length]
      · rw [if_neg hc3] at hu
        by_cases hc4 : k + 1 = rest.length
        · rw [if_pos (by omega)] at hu
          simp only [Option.some.injEq, Except.ok.injEq] at hu
          rw [← hu]
          exact ⟨rfl, fun h => by omega⟩
        · rw [if_neg (by omega)] at hu
          simp at hu
  · intro hk h8 lc hlc
    have hk0 : k0 = 0 := by
      rw [show (4 : Nat) = 3 + 1 from rfl] at hk
      simp only [idx?_cons_add_one, idx?_cons_zero, Option.some.injEq] at hk
      omega
    subst hk0
    obtain ⟨hi, lo, rest2, rfl⟩ : ∃ hi lo rest2, rest = hi :: lo :: rest2 := by
      cases rest with
      | nil => simp at h8
      | cons hi rest1 =>
          cases rest1 with
          | nil => simp at h8
          | cons lo rest2 => exact ⟨hi, lo, rest2, rfl⟩
    have hlcv : lc = hi * 256 + lo := by
      simp only [List.drop_succ_cons, List.drop_zero, beUint16?_cons,
        Option.some.injEq] at hlc
      omega
    subst hlcv
    have hrl2 : (a :: b :: d :: e :: 0 :: hi :: lo :: rest2).length
        = 7 + rest2.length := by
      simp only [List.length_cons]; omega
    rw [parse_ext_general a b d e hi lo rest2
      (by simp only [List.length_cons] at h8; omega)
      (by simp only [List.length_cons] at h65; omega)]
    refine ⟨?_, ?_, ?_⟩
    · constructor
      · rintro ⟨u, hu⟩
        by_contra hno
        push_neg at hno
        rw [if_neg (by omega), if_neg (by omega)] at hu
        simp at hu
      · intro h
        rcases h with h | h
        · rw [if_pos (by omega)]
          exact ⟨_, rfl⟩
        · rw [if_neg (by omega), if_pos (by omega)]
          exact ⟨_, rfl⟩
    · intro hne1 hne2
      rw [if_neg (by omega), if_neg (by omega)]
    · intro u hu
      by_cases hc3 : hi * 256 + lo = rest2.length
      · rw [if_pos hc3] at hu
        simp only [Option.some.injEq, Except.ok.injEq] at hu
        rw [← hu]
        refine ⟨?_, fun _ => rfl⟩
        show rest2 = rest2.take (hi * 256 + lo)
        rw [hc3, List.take_length]
      · rw [if_neg hc3] at hu
        by_cases hc4 : hi * 256 + lo + 2 = rest2.length
        · rw [if_pos (by omega)] at hu
          simp only [Option.some.injEq, Except.ok.injEq] at hu
          rw [← hu]
          exact ⟨rfl, fun h => by omega⟩
        · rw [if_neg (by omega)] at hu
          simp at hu

/-- Claim C2 witness: matching and mismatching Lc values in both
regimes. -/
theorem claim_C2_witness :
    (∃ u, ParseCapdu [0, 0xA4, 4, 0, 5, 1, 2, 3, 4, 5] = some (.ok u)) ∧
    ParseCapdu [0, 0xA4, 4, 0, 9, 1, 2, 3, 4, 5]
      = some (.error (.invalidLcStd 9)) ∧
    (∃ u, ParseCapdu [0, 0xA4, 4, 0, 0, 0, 3, 1, 2, 3] = some (.ok u)) ∧
    ParseCapdu [0, 0xA4, 4, 0, 0, 0, 9, 1, 2, 3]
      = some (.error (.invalidLcExt 9)) :=
  ⟨((claim_C2_case_determination [0, 0xA4, 4, 0, 5, 1, 2, 3, 4, 5] (by decide)
      (by decide)).1 5 rfl (by decide)).1.mpr (Or.inl (by decide)),
   ((claim_C2_case_determination [0, 0xA4, 4, 0, 9, 1, 2, 3, 4, 5] (by decide)
      (by decide)).1 9 rfl (by decide)).2.1 (by decide) (by decide),
   ((claim_C2_case_determination [0, 0xA4, 4, 0, 0, 0, 3, 1, 2, 3] (by decide)
      (by decide)).2 rfl (by decide) 3 rfl).1.mpr (Or.inl (by decide)),
   ((claim_C2_case_determination [0, 0xA4, 4, 0, 0, 0, 9, 1, 2, 3] (by decide)
      (by decide)).2 rfl (by decide) 9 rfl).2.1 (by decide) (by decide)⟩

/-! ### Shape lemmas for the older parser variant -/

/-- Older variant, Case 1. -/
theorem part000_case1 (a b d e : Nat) :
    Part000ParseCapdu [a, b, d, e] = some (.ok ⟨a, b, d, e, [], 0⟩) := rfl

/-- Older variant, standard Case 2. -/
theorem part000_case2_std (a b d e x : Nat) :
    Part000ParseCapdu [a, b, d, e, x]
      = some (.ok ⟨a, b, d, e, [], if x = 0 then 256 else x⟩) := by
  by_cases hx : x = 0
  · subst hx; rfl
  · unfold Part000ParseCapdu
    norm_num [idx?]
    simp [hx]

/-- Older variant, HID quirk accepted. -/
theorem part000_hid_ok (a b d e : Nat) :
    Part000ParseCapdu [a, b, d, e, 0, 0] = some (.ok ⟨a, b, d, e, [], 256⟩) := rfl

/-- Older variant, HID quirk rejected (its 16-bit Le read at offset 4
equals the final byte because the sentinel byte is zero). -/
theorem part000_hid_err (a b d e x : Nat) (hx : x ≠ 0) :
    Part000ParseCapdu [a, b, d, e, 0, x]
      = some (.error (.invalidLeHid x)) := by
  unfold Part000ParseCapdu
  norm_num [idx?, sliceFrom?, beUint16?]
  intro h
  exact absurd h hx

/-- Older variant, extended Case 2. -/
theorem part000_case2_ext (a b d e hi lo : Nat) :
    Part000ParseCapdu [a, b, d, e, 0, hi, lo]
      = some (.ok ⟨a, b, d, e, [],
          if hi * 256 + lo = 0 then 65536 else hi * 256 + lo⟩) := by
  unfold Part000ParseCapdu
  norm_num [idx?, sliceFrom?, beUint16?]

/-- Older variant, master lemma for the standard Lc path. -/
theorem part000_std_general (a b d e k : Nat) (rest : List Nat)
    (hk : k ≠ 0) (hm1 : 1 ≤ rest.length) (hm2 : rest.length ≤ 65539) :
    Part000ParseCapdu (a :: b :: d :: e :: k :: rest) =
      if k = rest.length then
        some (.ok ⟨a, b, d, e, rest, 0⟩)
      else if k + 1 = rest.length then
        some (.ok ⟨a, b, d, e, rest.take k,
          if rest.getD k 0 = 0 then 256 else rest.getD k 0⟩)
      else some (.error (.invalidLcStd k)) := by
  have hlen : (a :: b :: d :: e :: k :: rest).length = 5 + rest.length := by
    simp only [List.length_cons]; omega
  unfold Part000ParseCapdu
  rw [if_neg (by rw [hlen]; omega)]
  show (Option.bind _ _) = _
  simp only [idx?_cons_zero, idx?_cons_add_one, Option.some_bind]
  rw [if_neg (by rw [hlen]; omega)]
  rw [if_neg hk]
  rw [if_neg (by rw [hlen]; omega)]
  rw [hlen]
  push_cast
  by_cases h3 : k = rest.length
  · subst h3
    rw [if_neg (by omega)]
    unfold slice?
    rw [if_pos (by omega)]
    simp only [List.drop_succ_cons, List.drop_zero, Option.some_bind]
    rw [show 5 + rest.length - 5 = rest.length by omega, List.take_length]
    rw [if_pos (by omega), if_pos trivial]
  · by_cases h4 : k + 1 = rest.length
    · rw [if_neg (by omega)]
      unfold slice?
      rw [if_pos (by omega)]
      simp only [List.drop_succ_cons, List.drop_zero, Option.some_bind]
      rw [show 5 + k - 5 = k by omega]
      rw [if_neg (by rw [List.length_take]; omega)]
      rw [show 5 + rest.length - 1 = k + 5 by omega, idx?_cons5,
        idx?_getD rest k (by omega)]
      simp only [Option.some_bind]
      rw [if_neg h3, if_pos h4]
    · rw [if_pos (by omega)]
      rw [if_neg h3, if_neg h4]

/-- Older variant, master lemma for the extended Lc path. -/
theorem part000_ext_general (a b d e hi lo : Nat) (rest : List Nat)
    (hm1 : 1 ≤ rest.length) (hm2 : rest.length ≤ 65537) :
    Part000ParseCapdu (a :: b :: d :: e :: 0 :: hi :: lo :: rest) =
      if hi * 256 + lo = rest.length then
        some (.ok ⟨a, b, d, e, rest, 0⟩)
      else if hi * 256 + lo + 2 = rest.length then
        some (.ok ⟨a, b, d, e, rest.take (hi * 256 + lo),
          if rest.getD (rest.length - 2) 0 * 256 + rest.getD (rest.length - 1) 0 = 0
          then 65536
          else rest.getD (rest.length - 2) 0 * 256 + rest.getD (rest.length - 1) 0⟩)
      else some (.error (.invalidLcExt (hi * 256 + lo))) := by
  have hlen : (a :: b :: d :: e :: 0 :: hi :: lo :: rest).length = 7 + rest.length := by
    simp only [List.length_cons]; omega
  unfold Part000ParseCapdu
  rw [if_neg (by rw [hlen]; omega)]
  show (Option.bind _ _) = _
  simp only [idx?_cons_zero, idx?_cons_add_one, Option.some_bind]
  rw [if_neg (by rw [hlen]; omega)]
  rw [if_pos trivial]
  unfold sliceFrom?
  rw [if_pos (by rw [hlen]; omega)]
  simp only [List.drop_succ_cons, List.drop_zero, Option.some_bind]
  rw [if_pos (by simp only [List.length_cons]; omega)]
  rw [if_neg (by rw [hlen]; omega), if_neg (by rw [hlen]; omega)]
  unfold slice?
  rw [if_pos (by rw [hlen]; omega)]
  simp only [List.drop_succ_cons, List.drop_zero, Option.some_bind]
  rw [show (7 : Nat) - 5 = 2 from rfl]
  rw [show (hi :: lo :: rest).take 2 = [hi, lo] from rfl, beUint16?_cons]
  simp only [Option.some_bind, hlen]
  push_cast
  by_cases h3 : hi * 256 + lo = rest.length
  · rw [if_neg (by omega)]
    rw [if_pos (by omega)]
    simp only [List.drop_succ_cons, List.drop_zero, Option.some_bind]
    rw [show 7 + (hi * 256 + lo) - 7 = hi * 256 + lo by omega, h3, List.take_length]
    rw [if_pos (by omega)]
    simp
  · by_cases h4 : hi * 256 + lo + 2 = rest.length
    · rw [if_neg (by omega)]
      rw [if_pos (by omega)]
      simp only [List.drop_succ_cons, List.drop_zero, Option.some_bind]
      rw [show 7 + (hi * 256 + lo) - 7 = hi * 256 + lo by omega]
      rw [if_neg (by rw [List.length_take]; omega)]
      rw [if_pos (by omega)]
      simp only [Option.some_bind]
      rw [show 7 + rest.length - (7 + rest.length - 2) = 2 by omega]
      rw [show 7 + rest.length - 2 = (rest.length - 2) + 7 by omega, drop_cons7]
      rw [List.take_of_length_le (by rw [List.length_drop]; omega)]
      rw [beUint16?_isSome _ (by rw [List.length_drop]; omega)]
      rw [drop_headI_getD, List.tail_drop, drop_headI_getD,
        show rest.length - 2 + 1 = rest.length - 1 by omega]
      simp only [Option.some_bind]
      rw [if_neg h3, if_pos h4]
    · rw [if_pos (by omega)]
      rw [if_neg h3, if_neg h4]

/-- Claim C9: parser totality. For every byte input, malformed or not,
ParseCapdu and ParseRapdu return a result (`isSome`): in this embedding
every Go index or slice access is modelled as a fallible operation whose
failure would make the parser return `none`, so `isSome` states that every
access is in bounds, in particular the guarded data slices. -/
theorem claim_C9_totality :
    (∀ c : List Nat, (ParseCapdu c).isSome) ∧
    (∀ b : List Nat, (ParseRapdu b).isSome) := by
  constructor
  · intro c
    by_cases hg : c.length < 4 ∨ 65544 < c.length
    · unfold ParseCapdu
      rw [if_pos hg]
      rfl
    · push_neg at hg
      obtain ⟨a, b, d, e, rest, rfl⟩ := exists_cons4 c (by omega)
      by_cases h4 : rest.length = 0
      · rw [List.length_eq_zero.mp h4, parse_case1]
        rfl
      · obtain ⟨k, rest2, rfl⟩ : ∃ k rest2, rest = k :: rest2 := by
          cases rest with
          | nil => simp at h4
          | cons k rest2 => exact ⟨k, rest2, rfl⟩
        by_cases h5 : rest2.length = 0
        · rw [List.length_eq_zero.mp h5, parse_case2_std]
          rfl
        · by_cases hk : k = 0
          · subst hk
            obtain ⟨x, rest3, rfl⟩ : ∃ x rest3, rest2 = x :: rest3 := by
              cases rest2 with
              | nil => simp at h5
              | cons x rest3 => exact ⟨x, rest3, rfl⟩
            by_cases h6 : rest3.length = 0
            · rw [List.length_eq_zero.mp h6]
              by_cases hx : x = 0
              · subst hx
                rw [parse_hid_ok]
                rfl
              · rw [parse_hid_err _ _ _ _ _ hx]
                rfl
            · obtain ⟨y, rest4, rfl⟩ : ∃ y rest4, rest3 = y :: rest4 := by
                cases rest3 with
                | nil => simp at h6
                | cons y rest4 => exact ⟨y, rest4, rfl⟩
              by_cases h7 : rest4.length = 0
              · rw [List.length_eq_zero.mp h7, parse_case2_ext]
                rfl
              · rw [parse_ext_general a b d e x y rest4 (by omega)
                  (by simp only [List.length_cons] at hg; omega)]
                split
                · rfl
                · split <;> rfl
          · rw [parse_std_general a b d e k rest2 hk (by omega)
              (by simp only [List.length_cons] at hg; omega)]
            split
            · rfl
            · split <;> rfl
  · intro b
    by_cases hg : b.length < 2 ∨ 65538 < b.length
    · unfold ParseRapdu
      rw [if_pos hg]
      rfl
    · push_neg at hg
      unfold ParseRapdu
      rw [if_neg (by omega)]
      by_cases h2 : b.length = 2
      · rw [if_pos h2]
        rw [idx?_getD b 0 (by omega), idx?_getD b 1 (by omega)]
        rfl
      · rw [if_neg h2]
        unfold slice?
        rw [if_pos (by omega)]
        simp only [Option.some_bind]
        rw [idx?_getD b (b.length - 2) (by omega),
          idx?_getD b (b.length - 1) (by omega)]
        rfl

/-- Claim C10: implementation-variant equivalence. The parser of
`capdu.go` and the older variant agree on every input: both return the
very same result (same parsed Capdu on success, same error kind on
failure), despite the different ordering of the length-5 standard Case 2
check and the zero-sentinel check. -/
theorem claim_C10_variant_equivalence :
    ∀ c : List Nat, Part000ParseCapdu c = ParseCapdu c := by
  intro c
  by_cases hg : c.length < 4 ∨ 65544 < c.length
  · unfold Part000ParseCapdu ParseCapdu
    rw [if_pos hg, if_pos hg]
  · push_neg at hg
    obtain ⟨a, b, d, e, rest, rfl⟩ := exists_cons4 c (by omega)
    by_cases h4 : rest.length = 0
    · rw [List.length_eq_zero.mp h4, parse_case1, part000_case1]
    · obtain ⟨k, rest2, rfl⟩ : ∃ k rest2, rest = k :: rest2 := by
        cases rest with
        | nil => simp at h4
        | cons k rest2 => exact ⟨k, rest2, rfl⟩
      by_cases h5 : rest2.length = 0
      · rw [List.length_eq_zero.mp h5, parse_case2_std, part000_case2_std]
      · by_cases hk : k = 0
        · subst hk
          obtain ⟨x, rest3, rfl⟩ : ∃ x rest3, rest2 = x :: rest3 := by
            cases rest2 with
            | nil => simp at h5
            | cons x rest3 => exact ⟨x, rest3, rfl⟩
          by_cases h6 : rest3.length = 0
          · rw [List.length_eq_zero.mp h6]
            by_cases hx : x = 0
            · subst hx
              rw [parse_hid_ok, part000_hid_ok]
            · rw [parse_hid_err _ _ _ _ _ hx, part000_hid_err _ _ _ _ _ hx]
          · obtain ⟨y, rest4, rfl⟩ : ∃ y rest4, rest3 = y :: rest4 := by
              cases rest3 with
              | nil => simp at h6
              | cons y rest4 => exact ⟨y, rest4, rfl⟩
            by_cases h7 : rest4.length = 0
            · rw [List.length_eq_zero.mp h7, parse_case2_ext, part000_case2_ext]
            · rw [parse_ext_general a b d e x y rest4 (by omega)
                (by simp only [List.length_cons] at hg; omega),
                part000_ext_general a b d e x y rest4 (by omega)
                (by simp only [List.length_cons] at hg; omega)]
        · rw [parse_std_general a b d e k rest2 hk (by omega)
            (by simp only [List.length_cons] at hg; omega),
            part000_std_general a b d e k rest2 hk (by omega)
            (by simp only [List.length_cons] at hg; omega)]

/-- Claim C3 witness: the amended statement at the all-empty command. -/
theorem claim_C3_witness :
    ∃ out, (Capdu.mk 9 8 7 6 [] 0).BytesExtended = .ok out ∧
      idx? out 4 = some 0 ∧
      (1 ≤ ([] : List Nat).length →
        out.take 7 = [9, 8, 7, 6, 0, ([] : List Nat).length / 256 % 256,
          ([] : List Nat).length % 256] ∧
        (out.drop 7).take ([] : List Nat).length = [] ∧
        out.length = (if 1 ≤ 0 then 9 else 7) + ([] : List Nat).length) ∧
      (([] : List Nat).length = 0 → out.length = 7) ∧
      (([] : List Nat).length = 0 ∧ 1 ≤ 0 →
        out = [9, 8, 7, 6, 0, 0 / 256 % 256, 0 % 256]) ∧
      (([] : List Nat).length = 0 ∧ 0 = 0 →
        out = [9, 8, 7, 6, 0, 0, 0] ∧
        ParseCapdu out = some (.ok ⟨9, 8, 7, 6, [], 65536⟩)) :=
  claim_C3_amended (Capdu.mk 9 8 7 6 [] 0) (by decide) (by decide)

end GoApdu
